import Mathlib

/-!
Verification development for the OpenTenBase AI batch-processing and
result-caching extension (contrib/opentenbase_ai: ai.c and
ai_cache_enhancement.c).

The definitions below are shallow embeddings of the C functions:
  - the `ai.result_cache` table and `ai.cache_stats` row become explicit
    Lean state (`CacheDB`), with the SQL statements issued by
    `lookup_cache_result`, `store_cache_result` and `ai_cache_clear`
    translated to list operations;
  - the batch-context state machine from ai.c (`batch_processor` and
    `ai_batch_invoke`) becomes a labelled transition system on `MState`;
  - external collaborators (libcurl, the model registry table, the
    PostgreSQL hash/jsonb primitives, the underlying ai.invoke_model
    function) are abstracted as oracle parameters.
Timestamps are modelled as `Int` (microsecond-free abstract clock);
machine counters as `Int`.
-/

/-- One row of the `ai.result_cache` table
(ai_cache_enhancement.c, store_cache_result insert column list). -/
structure CacheEntry where
  model_name : String
  args_hash : String
  content_hash : String
  result_text : String
  created_time : Int
  expiry_time : Int
  access_count : Int
  deriving DecidableEq, Repr

/-- The single row of the `ai.cache_stats` table
(columns referenced by the UPDATE statements in ai_cache_enhancement.c). -/
structure CacheStatsRow where
  total_requests : Int
  cache_hits : Int
  cache_misses : Int
  batch_requests : Int
  current_entries : Int
  deriving DecidableEq, Repr

/-- The persistent cache state: the `ai.result_cache` table and the
`ai.cache_stats` row. -/
structure CacheDB where
  result_cache : List CacheEntry
  cache_stats : CacheStatsRow
  deriving DecidableEq, Repr

/-- The empty cache database (no rows, all counters zero). -/
def emptyCacheDB : CacheDB :=
  { result_cache := [],
    cache_stats :=
      { total_requests := 0, cache_hits := 0, cache_misses := 0,
        batch_requests := 0, current_entries := 0 } }

/-- The SQL key predicate `model_name = m AND args_hash = h` used by both
the lookup SELECT and the upsert conflict target. -/
def cacheKeyB (model_name args_hash : String) (e : CacheEntry) : Bool :=
  decide (e.model_name = model_name ∧ e.args_hash = args_hash)

/-- Rows of the table matching a given key (the first two conjuncts of
the lookup's WHERE clause). -/
def filterByKey (model_name args_hash : String) (l : List CacheEntry) :
    List CacheEntry :=
  l.filter (cacheKeyB model_name args_hash)

/-- The SQL liveness predicate `expiry_time > now()` from the lookup
SELECT in lookup_cache_result. -/
def liveAtB (now : Int) (e : CacheEntry) : Bool :=
  decide (now < e.expiry_time)

/-- `ORDER BY created_time DESC LIMIT 1`: pick a row with maximal
`created_time` (ties resolved arbitrarily, as in SQL). -/
def maxByCreated : List CacheEntry → Option CacheEntry
  | [] => none
  | e :: rest =>
    match maxByCreated rest with
    | none => some e
    | some m => if e.created_time < m.created_time then some m else some e

/-- ai_cache_enhancement.c, lookup_cache_result (lines 384-424): SELECT
result_text, created_time FROM ai.result_cache WHERE model_name = m AND
args_hash = h AND expiry_time > now() ORDER BY created_time DESC LIMIT 1.
The `ttl_seconds` argument of the C function is unused by its SQL, and is
kept here for signature fidelity.  Returns (result_text, created_time). -/
def lookup_cache_result (model_name args_hash : String) ( _ttl_seconds : Int)
    (now : Int) (db : CacheDB) : Option (String × Int) :=
  match maxByCreated
      ((filterByKey model_name args_hash db.result_cache).filter (liveAtB now)) with
  | none => none
  | some e => some (e.result_text, e.created_time)

/-- The INSERT ... ON CONFLICT (model_name, args_hash) DO UPDATE of
store_cache_result, as a list operation: the first row matching the key is
updated in place (result_text, created_time, expiry_time overwritten,
access_count incremented, content_hash left as stored, exactly as the
DO UPDATE SET column list); if no row matches, a fresh row with
access_count 1 is appended. -/
def upsertCacheEntry (model_name args_hash content_hash result : String)
    (ttl_seconds now : Int) : List CacheEntry → List CacheEntry
  | [] =>
    [{ model_name := model_name, args_hash := args_hash,
       content_hash := content_hash, result_text := result,
       created_time := now, expiry_time := now + ttl_seconds,
       access_count := 1 }]
  | e :: rest =>
    if cacheKeyB model_name args_hash e then
      { model_name := e.model_name, args_hash := e.args_hash,
        content_hash := e.content_hash, result_text := result,
        created_time := now, expiry_time := now + ttl_seconds,
        access_count := e.access_count + 1 } :: rest
    else
      e :: upsertCacheEntry model_name args_hash content_hash result
        ttl_seconds now rest

/-- ai_cache_enhancement.c, store_cache_result (lines 426-454): the upsert
followed by `UPDATE ai.cache_stats SET current_entries = (SELECT count(*)
FROM ai.result_cache)`. -/
def store_cache_result (model_name args_hash content_hash result : String)
    (ttl_seconds now : Int) (db : CacheDB) : CacheDB :=
  let rc := upsertCacheEntry model_name args_hash content_hash result
    ttl_seconds now db.result_cache
  { result_cache := rc,
    cache_stats := { db.cache_stats with current_entries := (rc.length : Int) } }

/-- ai_cache_enhancement.c, ai_cache_clear (lines 325-365).  The SQL
argument is `Option Bool` because the first C statement is
`clear_all = PG_ARGISNULL(0) ? true : PG_GETARG_BOOL(0)`.
clear_all: DELETE FROM ai.result_cache, then zero cache_hits,
cache_misses, total_requests and current_entries (the UPDATE at lines
349-351 touches exactly those four columns).  Otherwise: DELETE rows with
expiry_time < now(), then recompute current_entries.  Returns the new
state and SPI_processed, the number of deleted rows. -/
def ai_cache_clear (clear_all_arg : Option Bool) (now : Int)
    (db : CacheDB) : CacheDB × Nat :=
  let clear_all := clear_all_arg.getD true
  if clear_all then
    ({ result_cache := [],
       cache_stats :=
         { db.cache_stats with
           cache_hits := 0, cache_misses := 0,
           total_requests := 0, current_entries := 0 } },
     db.result_cache.length)
  else
    let kept := db.result_cache.filter (fun e => !decide (e.expiry_time < now))
    let removed := db.result_cache.filter (fun e => decide (e.expiry_time < now))
    ({ result_cache := kept,
       cache_stats := { db.cache_stats with current_entries := (kept.length : Int) } },
     removed.length)

/-- A concrete cache state used to exhibit the `batch_requests` counter
surviving a full clear. -/
def clearCexDB : CacheDB :=
  { result_cache :=
      [{ model_name := "m", args_hash := "h", content_hash := "c",
         result_text := "r", created_time := 0, expiry_time := 10,
         access_count := 1 }],
    cache_stats :=
      { total_requests := 3, cache_hits := 1, cache_misses := 2,
        batch_requests := 7, current_entries := 1 } }

/-- C3 counterexample: `Clear(all=true)` does NOT zero every CacheStats
counter.  On a state whose `batch_requests` counter is 7, the counter is
still 7 after a full clear: the UPDATE issued by ai_cache_clear for
clear_all = true sets only cache_hits, cache_misses, total_requests and
current_entries, never batch_requests. -/
theorem cache_clear_all_preserves_batch_requests :
    (ai_cache_clear (some true) 5 clearCexDB).1.cache_stats.batch_requests = 7 ∧
    ((7 : Int) ≠ 0) := by
  constructor
  · rfl
  · decide

/-- C3 (amended): `Clear(all=true)` deletes every entry, returns the
number of deleted entries, and zeroes totalRequests, hits, misses and
currentEntries, but leaves batchRequests untouched; `Clear(all=false)`
deletes exactly the entries with expiry before now, returns their count,
refreshes currentEntries, and leaves all of totalRequests, hits, misses
and batchRequests untouched. -/
theorem cache_clear_characterization (db : CacheDB) (now : Int) :
    ((ai_cache_clear (some true) now db).1.result_cache = [] ∧
     (ai_cache_clear (some true) now db).2 = db.result_cache.length ∧
     (ai_cache_clear (some true) now db).1.cache_stats.total_requests = 0 ∧
     (ai_cache_clear (some true) now db).1.cache_stats.cache_hits = 0 ∧
     (ai_cache_clear (some true) now db).1.cache_stats.cache_misses = 0 ∧
     (ai_cache_clear (some true) now db).1.cache_stats.current_entries = 0 ∧
     (ai_cache_clear (some true) now db).1.cache_stats.batch_requests =
       db.cache_stats.batch_requests) ∧
    ((ai_cache_clear (some false) now db).1.result_cache =
       db.result_cache.filter (fun e => !decide (e.expiry_time < now)) ∧
     (ai_cache_clear (some false) now db).2 =
       (db.result_cache.filter (fun e => decide (e.expiry_time < now))).length ∧
     (ai_cache_clear (some false) now db).1.cache_stats.total_requests =
       db.cache_stats.total_requests ∧
     (ai_cache_clear (some false) now db).1.cache_stats.cache_hits =
       db.cache_stats.cache_hits ∧
     (ai_cache_clear (some false) now db).1.cache_stats.cache_misses =
       db.cache_stats.cache_misses ∧
     (ai_cache_clear (some false) now db).1.cache_stats.batch_requests =
       db.cache_stats.batch_requests ∧
     (ai_cache_clear (some false) now db).1.cache_stats.current_entries =
       ((ai_cache_clear (some false) now db).1.result_cache.length : Int)) := by
  refine ⟨⟨rfl, rfl, rfl, rfl, rfl, rfl, rfl⟩, ⟨rfl, rfl, rfl, rfl, rfl, rfl, rfl⟩⟩

/-- C9: calling ai_cache_clear with a NULL argument behaves exactly like
clear_all = true: the resulting state and deleted count coincide with
those of `ai_cache_clear (some true)`, every cache entry is deleted, and
the hit/miss/total/current counters are reset. -/
theorem cache_clear_null_defaults_to_all (db : CacheDB) (now : Int) :
    ai_cache_clear none now db = ai_cache_clear (some true) now db ∧
    (ai_cache_clear none now db).1.result_cache = [] ∧
    (ai_cache_clear none now db).2 = db.result_cache.length ∧
    (ai_cache_clear none now db).1.cache_stats.cache_hits = 0 ∧
    (ai_cache_clear none now db).1.cache_stats.cache_misses = 0 ∧
    (ai_cache_clear none now db).1.cache_stats.total_requests = 0 ∧
    (ai_cache_clear none now db).1.cache_stats.current_entries = 0 := by
  exact ⟨rfl, rfl, rfl, rfl, rfl, rfl, rfl⟩

/-- Little-endian decimal digits of a natural number, with explicit fuel
so the definition is structural (the C loop index is a nonnegative int).
`decDigitsAux fuel n` is the digit list of `n` provided `n ≤ fuel`. -/
def decDigitsAux : Nat → Nat → List Nat
  | 0, _ => []
  | _ + 1, 0 => []
  | fuel + 1, n + 1 => (n + 1) % 10 :: decDigitsAux fuel ((n + 1) / 10)

/-- Little-endian decimal digits; `[0]` for zero so that rendering zero
gives "0" as printf does. -/
def decDigits (n : Nat) : List Nat :=
  if n = 0 then [0] else decDigitsAux n n

/-- Value of a little-endian digit list. -/
def decValue : List Nat → Nat
  | [] => 0
  | d :: rest => d + 10 * decValue rest

/-- The decimal rendering printf's %d performs on a nonnegative int. -/
def decRepr (n : Nat) : String :=
  { data := ((decDigits n).map Nat.digitChar).reverse }

/-- ai_cache_enhancement.c, ai_batch_invoke_cached line 185: the derived
per-item cache key `psprintf("batch_%s_%d", input_text, i)`, where `i` is
the item's position in the input array. -/
def simple_hash (input_text : String) (i : Nat) : String :=
  "batch_" ++ input_text ++ "_" ++ decRepr i

theorem decValue_decDigitsAux (fuel : Nat) :
    ∀ n, n ≤ fuel → decValue (decDigitsAux fuel n) = n := by
  induction fuel with
  | zero =>
    intro n hn
    interval_cases n
    rfl
  | succ f ih =>
    intro n hn
    match n with
    | 0 => rfl
    | m + 1 =>
      have hdiv : (m + 1) / 10 ≤ f := by
        have h1 : (m + 1) / 10 < m + 1 := Nat.div_lt_self (Nat.succ_pos m) (by omega)
        omega
      show decValue ((m + 1) % 10 :: decDigitsAux f ((m + 1) / 10)) = m + 1
      show (m + 1) % 10 + 10 * decValue (decDigitsAux f ((m + 1) / 10)) = m + 1
      rw [ih _ hdiv]
      exact Nat.mod_add_div (m + 1) 10

theorem decValue_decDigits (n : Nat) : decValue (decDigits n) = n := by
  by_cases h : n = 0
  · subst h; rfl
  · unfold decDigits
    rw [if_neg h]
    exact decValue_decDigitsAux n n (Nat.le_refl n)

theorem decDigits_injective : Function.Injective decDigits := by
  intro a b h
  have := decValue_decDigits a
  rw [h, decValue_decDigits b] at this
  exact this.symm

theorem decDigitsAux_lt_ten (fuel : Nat) :
    ∀ n d, d ∈ decDigitsAux fuel n → d < 10 := by
  induction fuel with
  | zero => intro n d hd; simp [decDigitsAux] at hd
  | succ f ih =>
    intro n d hd
    match n with
    | 0 => simp [decDigitsAux] at hd
    | m + 1 =>
      simp only [decDigitsAux, List.mem_cons] at hd
      rcases hd with h | h
      · subst h; exact Nat.mod_lt _ (by omega)
      · exact ih _ _ h

theorem decDigits_lt_ten (n : Nat) : ∀ d ∈ decDigits n, d < 10 := by
  intro d hd
  unfold decDigits at hd
  by_cases h : n = 0
  · rw [if_pos h] at hd
    simp at hd
    omega
  · rw [if_neg h] at hd
    exact decDigitsAux_lt_ten n n d hd

theorem digitChar_inj_lt_ten :
    ∀ d1 < 10, ∀ d2 < 10, Nat.digitChar d1 = Nat.digitChar d2 → d1 = d2 := by
  decide

theorem map_digitChar_inj :
    ∀ l1 l2 : List Nat, (∀ d ∈ l1, d < 10) → (∀ d ∈ l2, d < 10) →
      l1.map Nat.digitChar = l2.map Nat.digitChar → l1 = l2 := by
  intro l1
  induction l1 with
  | nil =>
    intro l2 _ _ h
    cases l2 with
    | nil => rfl
    | cons b bs => simp at h
  | cons a as ih =>
    intro l2 h1 h2 h
    cases l2 with
    | nil => simp at h
    | cons b bs =>
      simp only [List.map_cons, List.cons.injEq] at h
      have ha : a < 10 := h1 a (List.mem_cons_self a as)
      have hb : b < 10 := h2 b (List.mem_cons_self b bs)
      have hab : a = b := digitChar_inj_lt_ten a ha b hb h.1
      have hrest : as = bs :=
        ih bs (fun d hd => h1 d (List.mem_cons_of_mem a hd))
          (fun d hd => h2 d (List.mem_cons_of_mem b hd)) h.2
      rw [hab, hrest]

theorem decRepr_injective : Function.Injective decRepr := by
  intro a b h
  have hdata : ((decDigits a).map Nat.digitChar).reverse =
      ((decDigits b).map Nat.digitChar).reverse := congrArg String.data h
  have hmap := List.reverse_injective hdata
  have hdig := map_digitChar_inj (decDigits a) (decDigits b)
    (decDigits_lt_ten a) (decDigits_lt_ten b) hmap
  exact decDigits_injective hdig

/-- C10: the derived batch cache key has the form
"batch_" ++ input ++ "_" ++ decimal(i); it is determined by (input,
position), so the same input at the same position always maps to the same
key, and for a fixed input text the keys at two different positions are
distinct.  Consequently, storing under the key of position i and looking
up under the key of position j ≠ i (same input text) never finds the
stored entry: the two positions use distinct cache entries. -/
theorem simple_hash_position_distinct (s : String) (i j : Nat) (hij : i ≠ j) :
    (∀ t : String, ∀ k : Nat,
        simple_hash t k = "batch_" ++ t ++ "_" ++ decRepr k) ∧
    simple_hash s i ≠ simple_hash s j ∧
    (∀ model content_hash payload : String, ∀ ttl now t : Int,
        lookup_cache_result model (simple_hash s j) ttl t
          (store_cache_result model (simple_hash s i) content_hash payload
            ttl now emptyCacheDB) = none) := by
  have hkey : simple_hash s i ≠ simple_hash s j := by
    intro h
    apply hij
    have hdata := congrArg String.data h
    simp only [simple_hash, String.data_append] at hdata
    have := List.append_cancel_left hdata
    exact decRepr_injective (String.ext this)
  refine ⟨fun t k => rfl, hkey, ?_⟩
  intro model content_hash payload ttl now t
  have hstore : (store_cache_result model (simple_hash s i) content_hash
      payload ttl now emptyCacheDB).result_cache =
      [{ model_name := model, args_hash := simple_hash s i,
         content_hash := content_hash, result_text := payload,
         created_time := now, expiry_time := now + ttl,
         access_count := 1 }] := rfl
  have hfalse : cacheKeyB model (simple_hash s j)
      { model_name := model, args_hash := simple_hash s i,
        content_hash := content_hash, result_text := payload,
        created_time := now, expiry_time := now + ttl,
        access_count := 1 } = false := by
    simp only [cacheKeyB, decide_eq_false_iff_not]
    intro hc
    exact hkey hc.2
  simp only [lookup_cache_result, filterByKey, hstore, List.filter_cons,
    hfalse, List.filter_nil, maxByCreated]

/-- C10 witness: at input text "x" and positions 0 and 1 the derived batch
cache keys differ. -/
theorem simple_hash_position_distinct_witness :
    simple_hash "x" 0 ≠ simple_hash "x" 1 :=
  (simple_hash_position_distinct "x" 0 1 (by decide)).2.1

/-- The key columns (model_name, args_hash) are covered by a unique
constraint in the `ai.result_cache` DDL that ON CONFLICT relies on: no two
rows share a key. -/
def uniqueCacheKeys (l : List CacheEntry) : Prop :=
  l.Pairwise (fun a b => ¬(a.model_name = b.model_name ∧ a.args_hash = b.args_hash))

instance uniqueCacheKeysDecidable (l : List CacheEntry) :
    Decidable (uniqueCacheKeys l) := by
  unfold uniqueCacheKeys
  infer_instance

/-- The row inserted by store_cache_result when no row has the key. -/
def freshEntry (model_name args_hash content_hash result : String)
    (ttl_seconds now : Int) : CacheEntry :=
  { model_name := model_name, args_hash := args_hash,
    content_hash := content_hash, result_text := result,
    created_time := now, expiry_time := now + ttl_seconds,
    access_count := 1 }

/-- The row produced by the DO UPDATE branch of store_cache_result. -/
def updatedEntry (e : CacheEntry) (result : String) (ttl_seconds now : Int) :
    CacheEntry :=
  { model_name := e.model_name, args_hash := e.args_hash,
    content_hash := e.content_hash, result_text := result,
    created_time := now, expiry_time := now + ttl_seconds,
    access_count := e.access_count + 1 }

theorem filter_eq_nil_of_all_false {p : CacheEntry → Bool} :
    ∀ l : List CacheEntry, (∀ a ∈ l, p a = false) → l.filter p = [] := by
  intro l
  induction l with
  | nil => intro _; rfl
  | cons e rest ih =>
    intro h
    rw [List.filter_cons, h e (List.mem_cons_self e rest)]
    exact ih (fun a ha => h a (List.mem_cons_of_mem e ha))

theorem all_false_of_filter_eq_nil {p : CacheEntry → Bool} :
    ∀ l : List CacheEntry, l.filter p = [] → ∀ a ∈ l, p a = false := by
  intro l
  induction l with
  | nil => intro _ a ha; simp at ha
  | cons e rest ih =>
    intro h a ha
    rw [List.filter_cons] at h
    by_cases hp : p e = true
    · rw [if_pos hp] at h
      exact absurd h (List.cons_ne_nil e _)
    · have hpf : p e = false := Bool.eq_false_iff.mpr hp
      rw [if_neg hp] at h
      rcases List.mem_cons.mp ha with hae | harest
      · rw [hae]; exact hpf
      · exact ih h a harest

theorem maxByCreated_mem : ∀ (l : List CacheEntry) (e : CacheEntry),
    maxByCreated l = some e → e ∈ l := by
  intro l
  induction l with
  | nil => intro e h; simp [maxByCreated] at h
  | cons a rest ih =>
    intro e h
    cases hrest : maxByCreated rest with
    | none =>
      simp only [maxByCreated, hrest, Option.some.injEq] at h
      rw [← h]
      exact List.mem_cons_self a rest
    | some m =>
      simp only [maxByCreated, hrest] at h
      by_cases hlt : a.created_time < m.created_time
      · rw [if_pos hlt, Option.some.injEq] at h
        rw [← h]
        exact List.mem_cons_of_mem a (ih m hrest)
      · rw [if_neg hlt, Option.some.injEq] at h
        rw [← h]
        exact List.mem_cons_self a rest

theorem cacheKeyB_updatedEntry (model_name args_hash : String)
    (e : CacheEntry) (result : String) (ttl now : Int) :
    cacheKeyB model_name args_hash (updatedEntry e result ttl now) =
      cacheKeyB model_name args_hash e := rfl

theorem cacheKeyB_freshEntry (model_name args_hash content_hash result : String)
    (ttl now : Int) :
    cacheKeyB model_name args_hash
      (freshEntry model_name args_hash content_hash result ttl now) = true := by
  simp [cacheKeyB, freshEntry]

theorem filterByKey_nil (model_name args_hash : String) :
    filterByKey model_name args_hash [] = [] := rfl

theorem filterByKey_cons (model_name args_hash : String) (e : CacheEntry)
    (l : List CacheEntry) :
    filterByKey model_name args_hash (e :: l) =
      if cacheKeyB model_name args_hash e = true then
        e :: filterByKey model_name args_hash l
      else filterByKey model_name args_hash l := by
  unfold filterByKey
  rw [List.filter_cons]

theorem upsertCacheEntry_nil (model_name args_hash content_hash result : String)
    (ttl now : Int) :
    upsertCacheEntry model_name args_hash content_hash result ttl now [] =
      [freshEntry model_name args_hash content_hash result ttl now] := rfl

theorem upsertCacheEntry_cons (model_name args_hash content_hash result : String)
    (ttl now : Int) (e : CacheEntry) (rest : List CacheEntry) :
    upsertCacheEntry model_name args_hash content_hash result ttl now (e :: rest) =
      if cacheKeyB model_name args_hash e = true then
        updatedEntry e result ttl now :: rest
      else
        e :: upsertCacheEntry model_name args_hash content_hash result ttl now rest := rfl

/-- Rows matching a key that is absent stay absent through the filter:
under no key match, the upsert appends the fresh row at the end
(the INSERT branch of ON CONFLICT). -/
theorem upsert_of_no_match (model_name args_hash content_hash result : String)
    (ttl now : Int) :
    ∀ l : List CacheEntry,
      (∀ b ∈ l, cacheKeyB model_name args_hash b = false) →
      upsertCacheEntry model_name args_hash content_hash result ttl now l =
        l ++ [freshEntry model_name args_hash content_hash result ttl now] := by
  intro l
  induction l with
  | nil => intro _; rfl
  | cons a rest ih =>
    intro hall
    have ha : cacheKeyB model_name args_hash a = false :=
      hall a (List.mem_cons_self a rest)
    rw [upsertCacheEntry_cons, if_neg (by rw [ha]; exact Bool.false_ne_true),
      ih (fun b hb => hall b (List.mem_cons_of_mem a hb))]
    rfl

/-- Under key uniqueness, when a row with the key is present, the upsert
replaces it (the DO UPDATE branch) and the filtered view contains exactly
the updated row. -/
theorem filterByKey_upsert_present (model_name args_hash content_hash result : String)
    (ttl now : Int) :
    ∀ (l : List CacheEntry) (e : CacheEntry) (es : List CacheEntry),
      uniqueCacheKeys l →
      filterByKey model_name args_hash l = e :: es →
      filterByKey model_name args_hash
        (upsertCacheEntry model_name args_hash content_hash result ttl now l) =
        [updatedEntry e result ttl now] := by
  intro l
  induction l with
  | nil => intro e es _ hf; rw [filterByKey_nil] at hf; exact absurd hf.symm (List.cons_ne_nil e es)
  | cons a rest ih =>
    intro e es hu hf
    have hhead : ∀ b ∈ rest,
        ¬(a.model_name = b.model_name ∧ a.args_hash = b.args_hash) :=
      (List.pairwise_cons.mp hu).1
    have htail : uniqueCacheKeys rest := (List.pairwise_cons.mp hu).2
    by_cases hkey : cacheKeyB model_name args_hash a = true
    · have hka : a.model_name = model_name ∧ a.args_hash = args_hash :=
        of_decide_eq_true hkey
      have hrestnil : filterByKey model_name args_hash rest = [] := by
        apply filter_eq_nil_of_all_false
        intro b hb
        apply decide_eq_false
        intro hkb
        exact hhead b hb ⟨hka.1.trans hkb.1.symm, hka.2.trans hkb.2.symm⟩
      have hae : a = e := by
        rw [filterByKey_cons, if_pos hkey, hrestnil] at hf
        exact (List.cons.injEq a [] e es).mp hf |>.1
      rw [upsertCacheEntry_cons, if_pos hkey, filterByKey_cons,
        cacheKeyB_updatedEntry]
      rw [if_pos hkey, hrestnil, hae]
    · rw [filterByKey_cons, if_neg hkey] at hf
      rw [upsertCacheEntry_cons, if_neg hkey, filterByKey_cons, if_neg hkey]
      exact ih e es htail hf

/-- Under key uniqueness, after an upsert the rows matching the stored key
are exactly one row carrying the stored payload, creation time and expiry
time. -/
theorem filterByKey_upsert_exists (model_name args_hash content_hash result : String)
    (ttl now : Int) (l : List CacheEntry) (hu : uniqueCacheKeys l) :
    ∃ u : CacheEntry,
      filterByKey model_name args_hash
        (upsertCacheEntry model_name args_hash content_hash result ttl now l) = [u] ∧
      u.result_text = result ∧ u.created_time = now ∧
      u.expiry_time = now + ttl ∧ u.model_name = model_name ∧
      u.args_hash = args_hash := by
  cases hf : filterByKey model_name args_hash l with
  | nil =>
    refine ⟨freshEntry model_name args_hash content_hash result ttl now, ?_,
      rfl, rfl, rfl, rfl, rfl⟩
    have hall : ∀ b ∈ l, cacheKeyB model_name args_hash b = false :=
      all_false_of_filter_eq_nil l hf
    rw [upsert_of_no_match model_name args_hash content_hash result ttl now l hall]
    unfold filterByKey
    rw [List.filter_append, filter_eq_nil_of_all_false l hall, List.nil_append,
      List.filter_cons, if_pos (cacheKeyB_freshEntry model_name args_hash
        content_hash result ttl now)]
    rfl
  | cons e es =>
    have hkey : cacheKeyB model_name args_hash e = true := by
      have he : e ∈ filterByKey model_name args_hash l := by
        rw [hf]; exact List.mem_cons_self e es
      exact (List.mem_filter.mp he).2
    have hke : e.model_name = model_name ∧ e.args_hash = args_hash :=
      of_decide_eq_true hkey
    exact ⟨updatedEntry e result ttl now,
      filterByKey_upsert_present model_name args_hash content_hash result
        ttl now l e es hu hf, rfl, rfl, rfl, hke.1, hke.2⟩

theorem mem_upsertCacheEntry (model_name args_hash content_hash result : String)
    (ttl now : Int) :
    ∀ (l : List CacheEntry) (b : CacheEntry),
      b ∈ upsertCacheEntry model_name args_hash content_hash result ttl now l →
      b ∈ l ∨ (b.model_name = model_name ∧ b.args_hash = args_hash) := by
  intro l
  induction l with
  | nil =>
    intro b hb
    rw [upsertCacheEntry_nil] at hb
    rcases List.mem_cons.mp hb with h | h
    · right; rw [h]; exact ⟨rfl, rfl⟩
    · simp at h
  | cons a rest ih =>
    intro b hb
    rw [upsertCacheEntry_cons] at hb
    by_cases hkey : cacheKeyB model_name args_hash a = true
    · rw [if_pos hkey] at hb
      rcases List.mem_cons.mp hb with h | h
      · right
        have hka : a.model_name = model_name ∧ a.args_hash = args_hash :=
          of_decide_eq_true hkey
        rw [h]
        exact hka
      · exact Or.inl (List.mem_cons_of_mem a h)
    · rw [if_neg hkey] at hb
      rcases List.mem_cons.mp hb with h | h
      · exact Or.inl (h ▸ List.mem_cons_self a rest)
      · rcases ih b h with h2 | h2
        · exact Or.inl (List.mem_cons_of_mem a h2)
        · exact Or.inr h2

/-- The upsert preserves key uniqueness (as the unique index does). -/
theorem uniqueCacheKeys_upsert (model_name args_hash content_hash result : String)
    (ttl now : Int) :
    ∀ l : List CacheEntry, uniqueCacheKeys l →
      uniqueCacheKeys
        (upsertCacheEntry model_name args_hash content_hash result ttl now l) := by
  intro l
  induction l with
  | nil =>
    intro _
    rw [upsertCacheEntry_nil]
    exact List.pairwise_singleton _ _
  | cons a rest ih =>
    intro hu
    have hhead : ∀ b ∈ rest,
        ¬(a.model_name = b.model_name ∧ a.args_hash = b.args_hash) :=
      (List.pairwise_cons.mp hu).1
    have htail : uniqueCacheKeys rest := (List.pairwise_cons.mp hu).2
    rw [upsertCacheEntry_cons]
    by_cases hkey : cacheKeyB model_name args_hash a = true
    · rw [if_pos hkey]
      apply List.pairwise_cons.mpr
      exact ⟨fun b hb => hhead b hb, htail⟩
    · rw [if_neg hkey]
      apply List.pairwise_cons.mpr
      refine ⟨?_, ih htail⟩
      intro b hb hab
      rcases mem_upsertCacheEntry model_name args_hash content_hash result
          ttl now rest b hb with h | h
      · exact hhead b h hab
      · exact hkey (decide_eq_true ⟨hab.1.trans h.1, hab.2.trans h.2⟩)

/-- Store followed by lookup on the same key: a hit with the stored
payload while now is strictly before the expiry time, a miss afterwards. -/
theorem lookup_after_store (model_name args_hash content_hash result : String)
    (ttl now t lttl : Int) (db : CacheDB)
    (hu : uniqueCacheKeys db.result_cache) :
    lookup_cache_result model_name args_hash lttl t
      (store_cache_result model_name args_hash content_hash result ttl now db) =
      if t < now + ttl then some (result, now) else none := by
  obtain ⟨u, hfu, hres, hcr, hexp, _, _⟩ :=
    filterByKey_upsert_exists model_name args_hash content_hash result
      ttl now db.result_cache hu
  have hdb : (store_cache_result model_name args_hash content_hash result
      ttl now db).result_cache =
      upsertCacheEntry model_name args_hash content_hash result ttl now
        db.result_cache := rfl
  have hlive : liveAtB t u = decide (t < now + ttl) := by
    unfold liveAtB
    rw [hexp]
  by_cases hlt : t < now + ttl
  · rw [if_pos hlt]
    simp only [lookup_cache_result, hdb, hfu, List.filter_cons,
      List.filter_nil, hlive, decide_eq_true hlt, if_pos rfl, maxByCreated,
      hres, hcr]
  · rw [if_neg hlt]
    simp only [lookup_cache_result, hdb, hfu, List.filter_cons,
      List.filter_nil, hlive, decide_eq_false hlt, maxByCreated]

/-- Lookup only ever surfaces a physically present, unexpired row, and
reports that row's payload and creation time. -/
theorem lookup_never_expired (model_name args_hash : String)
    (lttl t : Int) (db : CacheDB) (p : String) (c : Int)
    (hl : lookup_cache_result model_name args_hash lttl t db = some (p, c)) :
    ∃ e ∈ db.result_cache, e.model_name = model_name ∧
      e.args_hash = args_hash ∧ t < e.expiry_time ∧
      e.result_text = p ∧ e.created_time = c := by
  unfold lookup_cache_result at hl
  split at hl
  · exact absurd hl (Option.noConfusion)
  · rename_i e hmax
    have hmem := maxByCreated_mem _ e hmax
    have hml := List.mem_filter.mp hmem
    have hkl := List.mem_filter.mp hml.1
    have hkey : e.model_name = model_name ∧ e.args_hash = args_hash :=
      of_decide_eq_true hkl.2
    have hlive : t < e.expiry_time := of_decide_eq_true hml.2
    have hpc : e.result_text = p ∧ e.created_time = c := by
      have := Option.some.injEq (e.result_text, e.created_time) (p, c) ▸ hl
      exact ⟨congrArg Prod.fst this, congrArg Prod.snd this⟩
    exact ⟨e, hkl.1, hkey.1, hkey.2, hlive, hpc.1, hpc.2⟩

/-- C5: for every key and payload, Store followed by Lookup of the same
key hits with that payload (and its creation time) while now is strictly
before the stored expiry time, and misses once the TTL has elapsed even
though the row still physically exists; moreover Lookup in general never
returns an expired entry. -/
theorem store_lookup_ttl_roundtrip (db : CacheDB)
    (model_name args_hash content_hash payload : String)
    (ttl now t : Int) (hu : uniqueCacheKeys db.result_cache) :
    (t < now + ttl →
      lookup_cache_result model_name args_hash ttl t
        (store_cache_result model_name args_hash content_hash payload ttl now db) =
        some (payload, now)) ∧
    (now + ttl ≤ t →
      lookup_cache_result model_name args_hash ttl t
        (store_cache_result model_name args_hash content_hash payload ttl now db) =
        none) ∧
    (∃ e ∈ (store_cache_result model_name args_hash content_hash payload
        ttl now db).result_cache,
      e.model_name = model_name ∧ e.args_hash = args_hash) ∧
    (∀ (db0 : CacheDB) (m0 h0 : String) (lttl0 t0 : Int) (p0 : String) (c0 : Int),
      lookup_cache_result m0 h0 lttl0 t0 db0 = some (p0, c0) →
      ∃ e ∈ db0.result_cache, e.model_name = m0 ∧ e.args_hash = h0 ∧
        t0 < e.expiry_time ∧ e.result_text = p0 ∧ e.created_time = c0) := by
  refine ⟨?_, ?_, ?_, ?_⟩
  · intro hlt
    rw [lookup_after_store model_name args_hash content_hash payload
      ttl now t ttl db hu, if_pos hlt]
  · intro hge
    rw [lookup_after_store model_name args_hash content_hash payload
      ttl now t ttl db hu, if_neg (by omega)]
  · obtain ⟨u, hfu, _, _, _, hm, hh⟩ :=
      filterByKey_upsert_exists model_name args_hash content_hash payload
        ttl now db.result_cache hu
    have hmemf : u ∈ filterByKey model_name args_hash
        (upsertCacheEntry model_name args_hash content_hash payload ttl now
          db.result_cache) := by
      rw [hfu]
      exact List.mem_cons_self u []
    have hmem := (List.mem_filter.mp hmemf).1
    exact ⟨u, hmem, hm, hh⟩
  · intro db0 m0 h0 lttl0 t0 p0 c0 hl
    exact lookup_never_expired m0 h0 lttl0 t0 db0 p0 c0 hl

/-- C5 witness: storing "v" at time 0 with TTL 60 into the empty database
hits at time 59 and misses at time 60. -/
theorem store_lookup_ttl_roundtrip_witness :
    lookup_cache_result "m" "h" 60 59
      (store_cache_result "m" "h" "c" "v" 60 0 emptyCacheDB) = some ("v", 0) ∧
    lookup_cache_result "m" "h" 60 60
      (store_cache_result "m" "h" "c" "v" 60 0 emptyCacheDB) = none :=
  ⟨(store_lookup_ttl_roundtrip emptyCacheDB "m" "h" "c" "v" 60 0 59
      List.Pairwise.nil).1 (by decide),
   (store_lookup_ttl_roundtrip emptyCacheDB "m" "h" "c" "v" 60 0 60
      List.Pairwise.nil).2.1 (by decide)⟩

/-- C6: Store is an upsert keyed by (model_name, args_hash): storing when
no row has the key appends a fresh row with access_count 1; storing when a
row has the key leaves exactly one matching row carrying the new payload,
refreshed created/expiry times and an incremented access_count; and after
Store(k,v1) then Store(k,v2), a Lookup(k) before the second expiry returns
v2 while exactly one row matches k. -/
theorem store_upsert_semantics (db : CacheDB)
    (model_name args_hash ch1 ch2 v1 v2 : String)
    (ttl1 ttl2 t1 t2 t : Int) (hu : uniqueCacheKeys db.result_cache) :
    (filterByKey model_name args_hash db.result_cache = [] →
      (store_cache_result model_name args_hash ch1 v1 ttl1 t1 db).result_cache =
        db.result_cache ++ [freshEntry model_name args_hash ch1 v1 ttl1 t1]) ∧
    (∀ e es, filterByKey model_name args_hash db.result_cache = e :: es →
      filterByKey model_name args_hash
        (store_cache_result model_name args_hash ch1 v1 ttl1 t1 db).result_cache =
        [updatedEntry e v1 ttl1 t1]) ∧
    (t < t2 + ttl2 →
      lookup_cache_result model_name args_hash ttl2 t
        (store_cache_result model_name args_hash ch2 v2 ttl2 t2
          (store_cache_result model_name args_hash ch1 v1 ttl1 t1 db)) =
        some (v2, t2)) ∧
    (filterByKey model_name args_hash
        (store_cache_result model_name args_hash ch2 v2 ttl2 t2
          (store_cache_result model_name args_hash ch1 v1 ttl1 t1 db)).result_cache).length
      = 1 := by
  have hu1 : uniqueCacheKeys
      (store_cache_result model_name args_hash ch1 v1 ttl1 t1 db).result_cache :=
    uniqueCacheKeys_upsert model_name args_hash ch1 v1 ttl1 t1
      db.result_cache hu
  refine ⟨?_, ?_, ?_, ?_⟩
  · intro habs
    have hall : ∀ b ∈ db.result_cache, cacheKeyB model_name args_hash b = false :=
      all_false_of_filter_eq_nil db.result_cache habs
    exact upsert_of_no_match model_name args_hash ch1 v1 ttl1 t1
      db.result_cache hall
  · intro e es hpres
    exact filterByKey_upsert_present model_name args_hash ch1 v1 ttl1 t1
      db.result_cache e es hu hpres
  · intro hlt
    rw [lookup_after_store model_name args_hash ch2 v2 ttl2 t2 t ttl2
      (store_cache_result model_name args_hash ch1 v1 ttl1 t1 db) hu1,
      if_pos hlt]
  · obtain ⟨u, hfu, _, _, _, _, _⟩ :=
      filterByKey_upsert_exists model_name args_hash ch2 v2 ttl2 t2
        (store_cache_result model_name args_hash ch1 v1 ttl1 t1 db).result_cache hu1
    have : filterByKey model_name args_hash
        (store_cache_result model_name args_hash ch2 v2 ttl2 t2
          (store_cache_result model_name args_hash ch1 v1 ttl1 t1 db)).result_cache
        = [u] := hfu
    rw [this]
    rfl

/-- C6 witness: on the empty database, storing "v1" then "v2" under the
same key and looking it up in time returns "v2", with exactly one matching
row; the first store appends a fresh row. -/
theorem store_upsert_semantics_witness :
    (store_cache_result "m" "h" "c1" "v1" 60 0 emptyCacheDB).result_cache =
      [] ++ [freshEntry "m" "h" "c1" "v1" 60 0] ∧
    lookup_cache_result "m" "h" 60 10
      (store_cache_result "m" "h" "c2" "v2" 60 5
        (store_cache_result "m" "h" "c1" "v1" 60 0 emptyCacheDB)) =
      some ("v2", 5) ∧
    (filterByKey "m" "h"
      (store_cache_result "m" "h" "c2" "v2" 60 5
        (store_cache_result "m" "h" "c1" "v1" 60 0 emptyCacheDB)).result_cache).length
      = 1 :=
  ⟨(store_upsert_semantics emptyCacheDB "m" "h" "c1" "c2" "v1" "v2" 60 60 0 5 10
      List.Pairwise.nil).1 rfl,
   (store_upsert_semantics emptyCacheDB "m" "h" "c1" "c2" "v1" "v2" 60 60 0 5 10
      List.Pairwise.nil).2.2.1 (by decide),
   (store_upsert_semantics emptyCacheDB "m" "h" "c1" "c2" "v1" "v2" 60 60 0 5 10
      List.Pairwise.nil).2.2.2⟩

/-- ai.c, batch_processor lines 188-189: the flush guard
`request_count > 0 && (request_count >= batch_size || wait_result == ETIMEDOUT)`. -/
def should_flush (request_count batch_size : Nat) (timed_out : Bool) : Bool :=
  decide (0 < request_count) &&
    (decide (batch_size ≤ request_count) || timed_out)

/-- ai.c, ai_batch_invoke line 395: the submitter signals the worker
exactly when the queue length has reached batch_size
(`request_count >= batch_size`). -/
def submit_signals (request_count batch_size : Nat) : Bool :=
  decide (batch_size ≤ request_count)

/-- The observable state of the global BatchContext (ai.c lines 37-44)
together with the worker's local snapshot array and, as history, the
batches handed to process_batch_requests_enhanced.  Requests are
identified by their ids. -/
structure MState where
  requests : List Nat
  request_count : Nat
  processing : Bool
  snapshot : Option (List Nat)
  flushed : List (List Nat)
  deriving DecidableEq, Repr

/-- Atomic steps of the system, each one critical section of ai.c:
`submit r` is ai_batch_invoke's enqueue section (lines 379-399);
`flushStart t` is the worker passing its guard, copying the first
request_count list nodes into the local array and releasing the mutex
(lines 188-204), with `t` recording whether the wait timed out;
`flushEnd` is the worker's post-processing section (lines 209-222):
processing reset, request_count zeroed, the queue head set to NULL, and
the snapshot handed over as the processed batch. -/
inductive BatchEv where
  | submit (r : Nat)
  | flushStart (timed_out : Bool)
  | flushEnd
  deriving DecidableEq, Repr

/-- One transition of the batch machinery; `none` when the event's guard
is not enabled.  Note that flushStart leaves `requests` and
`request_count` untouched: ai.c only clears them at flushEnd. -/
def batch_step (batch_size : Nat) (s : MState) : BatchEv → Option MState
  | .submit r =>
    some { s with requests := s.requests ++ [r],
                  request_count := s.request_count + 1 }
  | .flushStart timed_out =>
    if s.processing = false ∧
        should_flush s.request_count batch_size timed_out = true then
      some { s with processing := true,
                    snapshot := some (s.requests.take s.request_count) }
    else none
  | .flushEnd =>
    match s.snapshot with
    | some batch =>
      if s.processing then
        some { requests := [], request_count := 0, processing := false,
               snapshot := none, flushed := s.flushed ++ [batch] }
      else none
    | none => none

/-- Run a sequence of events. -/
def batch_run (batch_size : Nat) : MState → List BatchEv → Option MState
  | s, [] => some s
  | s, ev :: evs =>
    match batch_step batch_size s ev with
    | none => none
    | some s2 => batch_run batch_size s2 evs

/-- The state set up by init_batch_context: empty queue, not processing. -/
def batchInit : MState :=
  { requests := [], request_count := 0, processing := false,
    snapshot := none, flushed := [] }

/-- C1 counterexample: the queue is NOT emptied at flush start.  With the
default batch_size 10, after submitting request 1 and starting a
timer-driven flush, the queue still holds request 1; and in the extended
trace where request 2 is submitted during the flush, the flush completion
wipes the queue so that request 2 is in no flushed batch and no longer
queued — it has been discarded. -/
theorem flush_start_leaves_queue_nonempty :
    batch_run 10 batchInit [BatchEv.submit 1, BatchEv.flushStart true] =
      some { requests := [1], request_count := 1, processing := true,
             snapshot := some [1], flushed := [] } ∧
    ([1] : List Nat) ≠ [] ∧
    batch_run 10 batchInit
        [BatchEv.submit 1, BatchEv.flushStart true, BatchEv.submit 2,
         BatchEv.flushEnd] =
      some { requests := [], request_count := 0, processing := false,
             snapshot := none, flushed := [[1]] } := by
  refine ⟨by decide, by decide, by decide⟩

/-- The key invariant behind the discard: request r is in no flushed
batch, not in the pending snapshot, and — unless a flush is in
progress — not even in the queue. -/
def avoidsRequest (r : Nat) (s : MState) : Prop :=
  (∀ b ∈ s.flushed, r ∉ b) ∧
  (∀ b, s.snapshot = some b → r ∉ b) ∧
  (s.processing = true ∨ r ∉ s.requests)

theorem avoidsRequest_step (batch_size r : Nat) (s s2 : MState)
    (ev : BatchEv) (hstep : batch_step batch_size s ev = some s2)
    (hev : ev ≠ BatchEv.submit r) (hinv : avoidsRequest r s) :
    avoidsRequest r s2 := by
  obtain ⟨h1, h2, h3⟩ := hinv
  cases ev with
  | submit q =>
    have hqr : q ≠ r := fun hc => hev (by rw [hc])
    simp only [batch_step, Option.some.injEq] at hstep
    rw [← hstep]
    refine ⟨h1, h2, ?_⟩
    rcases h3 with hp | hnr
    · exact Or.inl hp
    · refine Or.inr ?_
      intro hmem
      rcases List.mem_append.mp hmem with hm | hm
      · exact hnr hm
      · exact hqr (List.mem_singleton.mp hm).symm
  | flushStart t =>
    simp only [batch_step] at hstep
    by_cases hc : s.processing = false ∧
        should_flush s.request_count batch_size t = true
    · rw [if_pos hc, Option.some.injEq] at hstep
      have hnr : r ∉ s.requests := by
        rcases h3 with hp | hnr
        · rw [hp] at hc
          exact absurd hc.1 (by decide)
        · exact hnr
      rw [← hstep]
      refine ⟨h1, ?_, Or.inl rfl⟩
      intro b hb
      have : b = s.requests.take s.request_count := by
        exact (Option.some.injEq _ _ ▸ hb.symm)
      rw [this]
      intro hmem
      exact hnr (List.mem_of_mem_take hmem)
    · rw [if_neg hc] at hstep
      exact absurd hstep (Option.noConfusion)
  | flushEnd =>
    cases hsn : s.snapshot with
    | none => simp [batch_step, hsn] at hstep
    | some batch =>
      simp only [batch_step, hsn] at hstep
      by_cases hp : s.processing = true
      · rw [if_pos hp, Option.some.injEq] at hstep
        rw [← hstep]
        refine ⟨?_, ?_, ?_⟩
        · intro b hb
          rcases List.mem_append.mp hb with hm | hm
          · exact h1 b hm
          · rw [List.mem_singleton.mp hm]
            exact h2 batch hsn
        · intro b hb
          exact absurd hb (Option.noConfusion)
        · exact Or.inr (by intro h; exact absurd h (List.not_mem_nil r))
      · rw [if_neg hp] at hstep
        exact absurd hstep (Option.noConfusion)

theorem avoidsRequest_run (batch_size r : Nat) :
    ∀ (evs : List BatchEv) (s s2 : MState),
      batch_run batch_size s evs = some s2 →
      BatchEv.submit r ∉ evs → avoidsRequest r s → avoidsRequest r s2 := by
  intro evs
  induction evs with
  | nil =>
    intro s s2 hrun _ hinv
    simp only [batch_run, Option.some.injEq] at hrun
    rw [← hrun]
    exact hinv
  | cons ev rest ih =>
    intro s s2 hrun hnot hinv
    simp only [batch_run] at hrun
    cases hstep : batch_step batch_size s ev with
    | none => rw [hstep] at hrun; exact absurd hrun (Option.noConfusion)
    | some s1 =>
      rw [hstep] at hrun
      have hev : ev ≠ BatchEv.submit r := by
        intro hc
        exact hnot (hc ▸ List.mem_cons_self ev rest)
      exact ih s1 s2 hrun (fun hc => hnot (List.mem_cons_of_mem ev hc))
        (avoidsRequest_step batch_size r s s1 ev hstep hev hinv)

/-- C1 (amended): at flush start the queue is snapshotted but NOT
emptied; it is emptied only at flush completion, and a request submitted
while a flush is in progress is appended to the stale queue and discarded
when that flush completes: unless it is submitted again, it never appears
in any batch handed to the fan-out executor, and once no flush is in
progress it is no longer even queued. -/
theorem flush_discards_requests_submitted_during_processing
    (batch_size r : Nat) (s s2 : MState) (evs : List BatchEv)
    (hproc : s.processing = true)
    (hflushed : ∀ b ∈ s.flushed, r ∉ b)
    (hsnap : ∀ b, s.snapshot = some b → r ∉ b)
    (hnotin : BatchEv.submit r ∉ evs)
    (hrun : batch_run batch_size s (BatchEv.submit r :: evs) = some s2) :
    (∀ b ∈ s2.flushed, r ∉ b) ∧ (s2.processing = false → r ∉ s2.requests) := by
  simp only [batch_run, batch_step] at hrun
  have hinv1 : avoidsRequest r
      { s with requests := s.requests ++ [r],
               request_count := s.request_count + 1 } :=
    ⟨hflushed, hsnap, Or.inl hproc⟩
  have hinv2 := avoidsRequest_run batch_size r evs _ s2 hrun hnotin hinv1
  refine ⟨hinv2.1, ?_⟩
  intro hpf
  rcases hinv2.2.2 with hp | hnr
  · rw [hp] at hpf
    exact absurd hpf (by decide)
  · exact hnr

/-- C1 witness: concretely, request 2 submitted during the flush of [1]
ends up in no flushed batch and is gone from the queue. -/
theorem flush_discard_witness :
    (2 : Nat) ∉ ([1] : List Nat) ∧ (2 : Nat) ∉ ([] : List Nat) := by
  have h := flush_discards_requests_submitted_during_processing 10 2
    { requests := [1], request_count := 1, processing := true,
      snapshot := some [1], flushed := [] }
    { requests := [], request_count := 0, processing := false,
      snapshot := none, flushed := [[1]] }
    [BatchEv.flushEnd] rfl
    (by decide)
    (by intro b hb; cases hb; decide)
    (by decide) (by decide)
  exact ⟨h.1 [1] (by decide), h.2 rfl⟩

/-- C7: the Waiting-to-Flushing transition fires exactly when the queue
is non-empty and either the queued count has reached the batch-size
threshold or the wait timed out; it never fires on an empty queue; and as
soon as the count reaches the threshold the guard holds with no timeout
(and the submitter's signal fires), so the flush does not wait out the
timer. -/
theorem flush_trigger_guard (request_count batch_size : Nat)
    (timed_out : Bool) (s : MState) :
    (should_flush 0 batch_size timed_out = false) ∧
    (1 ≤ batch_size → batch_size ≤ request_count →
      submit_signals request_count batch_size = true ∧
      should_flush request_count batch_size timed_out = true ∧
      should_flush request_count batch_size false = true) ∧
    (should_flush request_count batch_size timed_out = true ↔
      (0 < request_count ∧
        (batch_size ≤ request_count ∨ timed_out = true))) ∧
    ((batch_step batch_size s (BatchEv.flushStart timed_out)).isSome = true ↔
      (s.processing = false ∧
        should_flush s.request_count batch_size timed_out = true)) := by
  refine ⟨?_, ?_, ?_, ?_⟩
  · simp [should_flush]
  · intro h1 h2
    refine ⟨?_, ?_, ?_⟩
    · simp [submit_signals, h2]
    · simp [should_flush, h2]
      omega
    · simp [should_flush, h2]
      omega
  · simp [should_flush]
  · by_cases hc : s.processing = false ∧
        should_flush s.request_count batch_size timed_out = true
    · simp only [batch_step, if_pos hc, Option.isSome_some]
      exact ⟨fun _ => hc, fun _ => trivial⟩
    · simp only [batch_step, if_neg hc, Option.isSome_none]
      constructor
      · intro h
        exact absurd h (by decide)
      · intro h
        exact absurd h hc

/-- C7 witness: with batch_size 10, a queue of 10 triggers the signal and
the flush guard with no timeout, while the empty queue never flushes. -/
theorem flush_trigger_guard_witness :
    submit_signals 10 10 = true ∧ should_flush 10 10 false = true ∧
    should_flush 0 10 true = false := by
  have h := flush_trigger_guard 10 10 false batchInit
  have h2 := h.2.1 (by decide) (by decide)
  have h0 := (flush_trigger_guard 0 10 true batchInit).1
  exact ⟨h2.1, h2.2.2, h0⟩

/-- The three ways ai_batch_invoke can come back from its wait
(ai.c lines 401-441): the 30-second deadline expires and
`elog(ERROR, "Batch processing timeout")` fires; a non-NULL result text
is returned; or NULL is returned. -/
inductive BatchCallResult where
  | timeout
  | payload (s : String)
  | nullResult
  deriving DecidableEq, Repr

/-- ai.c, ai_batch_invoke lines 406-425: the wait loop
`while (!new_request->completed && !global_batch_ctx->processing)` with a
30s-bounded pthread_cond_timedwait, followed by the result read
`if (new_request->completed && new_request->result) result = strdup(...)`
and `PG_RETURN_NULL()` otherwise.  `obs` is the successive pairs
(new_request->completed, ctx->processing) observed under the mutex at
each evaluation of the loop condition; exhausting `obs` models the wait
deadline expiring (ETIMEDOUT), which raises the timeout error. -/
def ai_batch_invoke_wait (result : Option String) :
    List (Bool × Bool) → BatchCallResult
  | [] => .timeout
  | (completed, processing) :: rest =>
    if completed = false ∧ processing = false then
      ai_batch_invoke_wait result rest
    else
      match (if completed then result else none) with
      | some s => .payload s
      | none => .nullResult

/-- C2 counterexample: a wake that finds the caller's own completed flag
unset but the shared processing flag set makes ai_batch_invoke exit its
wait loop and return NULL — an early return, not the re-wait the claim
requires (a re-wait here, with no further wakes, would end in the
timeout error). -/
theorem wait_loop_early_exit_on_processing :
    ai_batch_invoke_wait (some "r") [(false, true)] =
      BatchCallResult.nullResult ∧
    BatchCallResult.nullResult ≠ BatchCallResult.timeout := by
  refine ⟨rfl, by decide⟩

/-- C2 (amended): the caller re-waits exactly while its own completed
flag and the context's processing flag are both unset; a payload is
returned only on an observation with the caller's own completed flag set
(and then it is the stored result), so a wake where the own flag is unset
never yields a payload — but when the processing flag is set it exits
early with NULL instead of re-waiting; and if every wake finds both flags
unset, the wait ceiling elapses and the call fails with the timeout
error. -/
theorem wait_loop_exit_characterization (result : Option String)
    (obs : List (Bool × Bool)) :
    (∀ s, ai_batch_invoke_wait result obs = BatchCallResult.payload s →
      result = some s ∧ ∃ p, (true, p) ∈ obs) ∧
    ((∀ cp ∈ obs, cp.1 = false) →
      ∀ s, ai_batch_invoke_wait result obs ≠ BatchCallResult.payload s) ∧
    ((∀ cp ∈ obs, cp.1 = false ∧ cp.2 = false) →
      ai_batch_invoke_wait result obs = BatchCallResult.timeout) := by
  induction obs with
  | nil =>
    refine ⟨?_, ?_, ?_⟩
    · intro s h
      exact absurd h (by simp [ai_batch_invoke_wait])
    · intro _ s h
      exact absurd h (by simp [ai_batch_invoke_wait])
    · intro _
      rfl
  | cons cp rest ih =>
    obtain ⟨c, p⟩ := cp
    cases c with
    | false =>
      cases p with
      | false =>
        have hstep : ai_batch_invoke_wait result ((false, false) :: rest) =
            ai_batch_invoke_wait result rest := by
          simp [ai_batch_invoke_wait]
        refine ⟨?_, ?_, ?_⟩
        · intro s h
          rw [hstep] at h
          obtain ⟨h1, q, hq⟩ := ih.1 s h
          exact ⟨h1, q, List.mem_cons_of_mem _ hq⟩
        · intro hall s h
          rw [hstep] at h
          exact ih.2.1 (fun x hx => hall x (List.mem_cons_of_mem _ hx)) s h
        · intro hall
          rw [hstep]
          exact ih.2.2 (fun x hx => hall x (List.mem_cons_of_mem _ hx))
      | true =>
        have hstep : ai_batch_invoke_wait result ((false, true) :: rest) =
            BatchCallResult.nullResult := by
          simp [ai_batch_invoke_wait]
        refine ⟨?_, ?_, ?_⟩
        · intro s h
          rw [hstep] at h
          exact absurd h (by simp)
        · intro _ s h
          rw [hstep] at h
          exact absurd h (by simp)
        · intro hall
          have := (hall (false, true) (List.mem_cons_self _ _)).2
          exact absurd this (by decide)
    | true =>
      cases result with
      | none =>
        have hstep : ai_batch_invoke_wait none ((true, p) :: rest) =
            BatchCallResult.nullResult := by
          simp [ai_batch_invoke_wait]
        refine ⟨?_, ?_, ?_⟩
        · intro s h
          rw [hstep] at h
          exact absurd h (by simp)
        · intro hall s h
          have hh := hall (true, p) (List.mem_cons_self (true, p) rest)
          simp at hh
        · intro hall
          have hh := (hall (true, p) (List.mem_cons_self (true, p) rest)).1
          simp at hh
      | some v =>
        have hstep : ai_batch_invoke_wait (some v) ((true, p) :: rest) =
            BatchCallResult.payload v := by
          simp [ai_batch_invoke_wait]
        refine ⟨?_, ?_, ?_⟩
        · intro s h
          rw [hstep] at h
          simp only [BatchCallResult.payload.injEq] at h
          exact ⟨by rw [h], p, List.mem_cons_self (true, p) rest⟩
        · intro hall s h
          have hh := hall (true, p) (List.mem_cons_self (true, p) rest)
          simp at hh
        · intro hall
          have hh := (hall (true, p) (List.mem_cons_self (true, p) rest)).1
          simp at hh

/-- C2 witness: concretely, re-waiting through wakes that leave both
flags unset ends in the timeout error, and an exit on an observation with
the own flag set returns the stored payload. -/
theorem wait_loop_witness :
    ai_batch_invoke_wait (some "v") [(false, false), (false, false)] =
      BatchCallResult.timeout ∧
    (some "v" : Option String) = some "v" := by
  refine ⟨?_, rfl⟩
  exact (wait_loop_exit_characterization (some "v")
    [(false, false), (false, false)]).2.2 (by decide)

/-- The row of public.ai_model_list selected by
process_batch_requests_enhanced (ai.c lines 513-516). -/
structure AIModelConfig where
  uri : String
  request_header : String
  content_type : String
  default_args : String
  request_type : String
  deriving DecidableEq, Repr

/-- The per-request data of a BatchRequest node that the fan-out phase
reads (ai.c lines 26-35, minus the queue link and outcome fields). -/
structure BatchRequestRec where
  model_name : String
  input_data : String
  user_args_json : String
  deriving DecidableEq, Repr

/-- The outcome fields of a BatchRequest after processing, plus whether
its curl handle was added to the multi handle. -/
structure BatchSlot where
  req : BatchRequestRec
  completed : Bool
  result : Option String
  error_msg : Option String
  dispatched : Bool
  deriving DecidableEq, Repr

/-- Phase 1 of process_batch_requests_enhanced (ai.c lines 500-571): for
each request, resolve the model via the SPI SELECT on public.ai_model_list
(abstracted as `resolve`); on success configure a curl handle and add it
to the multi handle; on failure (`SPI_processed != 1`) set
error_msg = "Model not found" and completed = true, and do not add the
handle. -/
def setup_phase (resolve : String → Option AIModelConfig)
    (reqs : List BatchRequestRec) : List BatchSlot :=
  reqs.map fun r =>
    match resolve r.model_name with
    | some _ =>
      { req := r, completed := false, result := none,
        error_msg := none, dispatched := true }
    | none =>
      { req := r, completed := true, result := none,
        error_msg := some "Model not found", dispatched := false }

/-- Phase 3 of process_batch_requests_enhanced (ai.c lines 601-613): for
each index i, if the slot is not already completed, store the response
body accumulated for curl handle i (`net i`, the WriteCallback buffer)
and mark it completed.  Slots completed in phase 1 are left untouched. -/
def store_phase (net : Nat → String) : Nat → List BatchSlot → List BatchSlot
  | _, [] => []
  | i, s :: rest =>
    (if s.completed then s
     else { s with result := some (net i), completed := true }) ::
      store_phase net (i + 1) rest

/-- ai.c, process_batch_requests_enhanced (lines 482-616): resolution,
concurrent dispatch of the resolved requests (the libcurl multi loop,
abstracted into the response oracle `net`), and the store-back pass. -/
def process_batch_requests_enhanced
    (resolve : String → Option AIModelConfig) (net : Nat → String)
    (reqs : List BatchRequestRec) : List BatchSlot :=
  store_phase net 0 (setup_phase resolve reqs)

theorem setup_phase_getElem (resolve : String → Option AIModelConfig)
    (reqs : List BatchRequestRec) (i : Nat) :
    (setup_phase resolve reqs)[i]? =
      (reqs[i]?).map (fun r =>
        match resolve r.model_name with
        | some _ =>
          { req := r, completed := false, result := none,
            error_msg := none, dispatched := true }
        | none =>
          { req := r, completed := true, result := none,
            error_msg := some "Model not found", dispatched := false }) := by
  unfold setup_phase
  exact List.getElem?_map _ reqs i

theorem store_phase_getElem (net : Nat → String) :
    ∀ (l : List BatchSlot) (k i : Nat),
      (store_phase net k l)[i]? =
        (l[i]?).map (fun s =>
          if s.completed then s
          else { s with result := some (net (k + i)), completed := true }) := by
  intro l
  induction l with
  | nil => intro k i; rfl
  | cons s rest ih =>
    intro k i
    cases i with
    | zero =>
      simp only [store_phase, List.getElem?_cons_zero, Option.map_some]
      rfl
    | succ j =>
      simp only [store_phase, List.getElem?_cons_succ]
      rw [ih (k + 1) j]
      have : k + 1 + j = k + (j + 1) := by omega
      rw [this]

/-- C4: in a batch, a request whose model fails to resolve gets its
outcome set to the "Model not found" error, is marked completed in phase
1, and is never added to the multi handle (not dispatched); every request
whose model resolves is dispatched and ends with its own response as its
result; and the slot a request ends with depends only on that request and
its index, not on the other requests of the batch. -/
theorem resolution_failure_isolated
    (resolve : String → Option AIModelConfig) (net : Nat → String)
    (reqs : List BatchRequestRec) (i : Nat) (r : BatchRequestRec)
    (hr : reqs[i]? = some r) :
    (resolve r.model_name = none →
      (process_batch_requests_enhanced resolve net reqs)[i]? =
        some { req := r, completed := true, result := none,
               error_msg := some "Model not found", dispatched := false }) ∧
    (∀ cfg, resolve r.model_name = some cfg →
      (process_batch_requests_enhanced resolve net reqs)[i]? =
        some { req := r, completed := true, result := some (net i),
               error_msg := none, dispatched := true }) ∧
    (∀ reqs2 : List BatchRequestRec, reqs2[i]? = some r →
      (process_batch_requests_enhanced resolve net reqs)[i]? =
        (process_batch_requests_enhanced resolve net reqs2)[i]?) := by
  have hform : ∀ reqs0 : List BatchRequestRec, reqs0[i]? = some r →
      (process_batch_requests_enhanced resolve net reqs0)[i]? =
        some (match resolve r.model_name with
          | some _ =>
            { req := r, completed := true, result := some (net i),
              error_msg := none, dispatched := true }
          | none =>
            { req := r, completed := true, result := none,
              error_msg := some "Model not found", dispatched := false }) := by
    intro reqs0 hr0
    unfold process_batch_requests_enhanced
    rw [store_phase_getElem net (setup_phase resolve reqs0) 0 i,
      setup_phase_getElem resolve reqs0 i, hr0]
    cases hres : resolve r.model_name with
    | some cfg => simp [hres]
    | none => simp [hres]
  refine ⟨?_, ?_, ?_⟩
  · intro hres
    rw [hform reqs hr, hres]
  · intro cfg hres
    rw [hform reqs hr, hres]
  · intro reqs2 hr2
    rw [hform reqs hr, hform reqs2 hr2]

/-- A concrete model registry for the 5-item scenario: every model
resolves except "m3". -/
def testResolve : String → Option AIModelConfig := fun m =>
  if m = "m3" then none
  else some { uri := "u", request_header := "rh", content_type := "ct",
              default_args := "da", request_type := "POST" }

/-- A concrete network oracle: handle i accumulates response "resp_i". -/
def testNet : Nat → String := fun i => "resp_" ++ decRepr i

/-- The 5-item batch of the spec's scenario; item 3 (index 2) uses the
unresolvable model. -/
def testBatch : List BatchRequestRec :=
  [{ model_name := "m1", input_data := "a", user_args_json := "j" },
   { model_name := "m2", input_data := "b", user_args_json := "j" },
   { model_name := "m3", input_data := "c", user_args_json := "j" },
   { model_name := "m4", input_data := "d", user_args_json := "j" },
   { model_name := "m5", input_data := "e", user_args_json := "j" }]

/-- C4 witness: in the 5-item batch where item 3's model fails to
resolve, item 3 ends with the error outcome, excluded from dispatch,
while items 1 and 4 are dispatched and get their own responses. -/
theorem resolution_failure_isolated_witness :
    (process_batch_requests_enhanced testResolve testNet testBatch)[2]? =
      some { req := { model_name := "m3", input_data := "c",
                      user_args_json := "j" },
             completed := true, result := none,
             error_msg := some "Model not found", dispatched := false } ∧
    (process_batch_requests_enhanced testResolve testNet testBatch)[0]? =
      some { req := { model_name := "m1", input_data := "a",
                      user_args_json := "j" },
             completed := true, result := some (testNet 0),
             error_msg := none, dispatched := true } ∧
    (process_batch_requests_enhanced testResolve testNet testBatch)[3]? =
      some { req := { model_name := "m4", input_data := "d",
                      user_args_json := "j" },
             completed := true, result := some (testNet 3),
             error_msg := none, dispatched := true } :=
  ⟨(resolution_failure_isolated testResolve testNet testBatch 2
      { model_name := "m3", input_data := "c", user_args_json := "j" }
      rfl).1 rfl,
   (resolution_failure_isolated testResolve testNet testBatch 0
      { model_name := "m1", input_data := "a", user_args_json := "j" }
      rfl).2.1
     { uri := "u", request_header := "rh", content_type := "ct",
       default_args := "da", request_type := "POST" } rfl,
   (resolution_failure_isolated testResolve testNet testBatch 3
      { model_name := "m4", input_data := "d", user_args_json := "j" }
      rfl).2.1
     { uri := "u", request_header := "rh", content_type := "ct",
       default_args := "da", request_type := "POST" } rfl⟩

/-- Oracles for the externals used by ai_invoke_model_cached and
ai_batch_invoke_cached (ai_cache_enhancement.c): the original
ai.invoke_model function reached through OidFunctionCall2 (which can
raise a PostgreSQL error, hence Except), the hash_any-based hashes, the
jsonb merge of the user args with the per-item input, and the
enable_ai_result_cache GUC. -/
structure AIEnv where
  invoke_model : String → String → Except String String
  args_hash_fn : String → String
  content_hash_fn : String → String
  merge_args : Option String → String → String
  enable_cache : Bool

/-- `UPDATE ai.cache_stats SET cache_hits = cache_hits + 1,
total_requests = total_requests + 1` (ai_cache_enhancement.c lines 95-99). -/
def bumpHitStats (db : CacheDB) : CacheDB :=
  { db with cache_stats :=
    { db.cache_stats with
      cache_hits := db.cache_stats.cache_hits + 1,
      total_requests := db.cache_stats.total_requests + 1 } }

/-- `UPDATE ai.cache_stats SET cache_misses = cache_misses + 1,
total_requests = total_requests + 1` (ai_cache_enhancement.c lines 131-135). -/
def bumpMissStats (db : CacheDB) : CacheDB :=
  { db with cache_stats :=
    { db.cache_stats with
      cache_misses := db.cache_stats.cache_misses + 1,
      total_requests := db.cache_stats.total_requests + 1 } }

/-- ai_cache_enhancement.c, ai_invoke_model_cached (lines 70-150): lookup
when caching is enabled and ttl > 0; on a hit return the cached text and
bump the hit counters; on a miss call the original ai.invoke_model (whose
error aborts the whole call), store the result when caching is enabled,
and bump the miss counters. -/
def ai_invoke_model_cached (env : AIEnv) (now : Int)
    (model_name user_args : String) (ttl_seconds : Int) (db : CacheDB) :
    Except String (String × CacheDB) :=
  match (if env.enable_cache && decide (0 < ttl_seconds) then
          lookup_cache_result model_name (env.args_hash_fn user_args)
            ttl_seconds now db
        else none) with
  | some (cached, _) => .ok (cached, bumpHitStats db)
  | none =>
    match env.invoke_model model_name user_args with
    | .error e => .error e
    | .ok r =>
      let db1 := if env.enable_cache && decide (0 < ttl_seconds) then
          store_cache_result model_name (env.args_hash_fn user_args)
            (env.content_hash_fn r) r ttl_seconds now db
        else db
      .ok (r, bumpMissStats db1)

/-- The per-item loop of ai_batch_invoke_cached (ai_cache_enhancement.c
lines 174-238).  `i` is the loop index, which advances on NULL inputs
too (the `continue` skips only the body); `acc` accumulates results in
reverse; `hits`/`misses` are the local counters.  A NULL input produces
no output element; a per-item error from the nested invoke propagates
out, aborting the loop. -/
def ai_batch_invoke_cached_loop (env : AIEnv) (now : Int)
    (model_name : String) (user_args : Option String) (ttl_seconds : Int) :
    List (Option String) → Nat → CacheDB → Nat → Nat → List String →
    Except String (List String × CacheDB × Nat × Nat)
  | [], _, db, hits, misses, acc => .ok (acc.reverse, db, hits, misses)
  | none :: rest, i, db, hits, misses, acc =>
    ai_batch_invoke_cached_loop env now model_name user_args ttl_seconds
      rest (i + 1) db hits misses acc
  | some input_text :: rest, i, db, hits, misses, acc =>
    match (if env.enable_cache && decide (0 < ttl_seconds) then
            lookup_cache_result model_name (simple_hash input_text i)
              ttl_seconds now db
          else none) with
    | some (cached, _) =>
      ai_batch_invoke_cached_loop env now model_name user_args ttl_seconds
        rest (i + 1) db (hits + 1) misses (cached :: acc)
    | none =>
      match ai_invoke_model_cached env now model_name
          (env.merge_args user_args input_text) ttl_seconds db with
      | .error e => .error e
      | .ok (r, db1) =>
        ai_batch_invoke_cached_loop env now model_name user_args ttl_seconds
          rest (i + 1) db1 hits (misses + 1) (r :: acc)

/-- ai_cache_enhancement.c, ai_batch_invoke_cached (lines 152-264): the
per-item loop followed by the closing statistics UPDATE, which adds the
local hit/miss counters, counts every array element (NULLs included) into
total_requests, and bumps batch_requests by one. -/
def ai_batch_invoke_cached (env : AIEnv) (now : Int) (model_name : String)
    (inputs : List (Option String)) (user_args : Option String)
    (ttl_seconds : Int) (db : CacheDB) :
    Except String (List String × CacheDB) :=
  match ai_batch_invoke_cached_loop env now model_name user_args ttl_seconds
      inputs 0 db 0 0 [] with
  | .error e => .error e
  | .ok (results, db1, hits, misses) =>
    .ok (results,
      { db1 with cache_stats :=
        { db1.cache_stats with
          cache_hits := db1.cache_stats.cache_hits + (hits : Int),
          cache_misses := db1.cache_stats.cache_misses + (misses : Int),
          total_requests := db1.cache_stats.total_requests + (inputs.length : Int),
          batch_requests := db1.cache_stats.batch_requests + 1 } })

/-- Length of the result sequence, when the call succeeded. -/
def resultsLength (r : Except String (List String × CacheDB)) : Option Nat :=
  match r with
  | .ok (rs, _) => some rs.length
  | .error _ => none

/-- An environment whose underlying invoke always fails (the model does
not resolve). -/
def failEnv : AIEnv :=
  { invoke_model := fun _ _ => .error "Model not found",
    args_hash_fn := fun s => s,
    content_hash_fn := fun s => s,
    merge_args := fun _ input_text => input_text,
    enable_cache := true }

/-- An environment whose underlying invoke always succeeds. -/
def okEnv : AIEnv :=
  { failEnv with invoke_model := fun _ _ => .ok "resp" }

/-- C8 counterexample: (i) a per-item failure does NOT appear in place as
an error entry — it aborts the whole sequence: with two inputs and a
failing model, ai_batch_invoke_cached returns a single error and no
result sequence at all; (ii) the result sequence does NOT positionally
match the input sequence: a NULL input is skipped outright, so two inputs
yield one result. -/
theorem batch_cached_abort_and_skip :
    ai_batch_invoke_cached failEnv 0 "m" [some "a", some "b"] none 3600
      emptyCacheDB = Except.error "Model not found" ∧
    resultsLength (ai_batch_invoke_cached okEnv 0 "m" [none, some "x"] none
      3600 emptyCacheDB) = some 1 ∧
    ([none, some "x"] : List (Option String)).length = 2 := by
  refine ⟨rfl, rfl, rfl⟩

theorem batch_cached_loop_length (env : AIEnv) (now : Int)
    (model_name : String) (user_args : Option String) (ttl_seconds : Int) :
    ∀ (inputs : List (Option String)) (i : Nat) (db : CacheDB)
      (hits misses : Nat) (acc : List String) (rs : List String)
      (db1 : CacheDB) (h2 m2 : Nat),
      ai_batch_invoke_cached_loop env now model_name user_args ttl_seconds
        inputs i db hits misses acc = .ok (rs, db1, h2, m2) →
      rs.length = acc.length + (inputs.filter Option.isSome).length := by
  intro inputs
  induction inputs with
  | nil =>
    intro i db hits misses acc rs db1 h2 m2 h
    simp only [ai_batch_invoke_cached_loop, Except.ok.injEq,
      Prod.mk.injEq] at h
    rw [← h.1]
    simp
  | cons o rest ih =>
    intro i db hits misses acc rs db1 h2 m2 h
    cases o with
    | none =>
      simp only [ai_batch_invoke_cached_loop] at h
      have hlen := ih (i + 1) db hits misses acc rs db1 h2 m2 h
      simpa using hlen
    | some input_text =>
      simp only [ai_batch_invoke_cached_loop] at h
      split at h
      · have hlen := ih (i + 1) db (hits + 1) misses (_ :: acc) rs db1 h2 m2 h
        simp only [List.length_cons] at hlen
        simp only [List.filter_cons, Option.isSome_some, if_true,
          List.length_cons]
        omega
      · split at h
        · exact Except.noConfusion h
        · rename_i r db0 heq
          have hlen := ih (i + 1) db0 hits (misses + 1) (r :: acc) rs db1 h2 m2 h
          simp only [List.length_cons] at hlen
          simp only [List.filter_cons, Option.isSome_some, if_true,
            List.length_cons]
          omega

/-- C8 (amended): ai_batch_invoke_cached applies the per-item
cache-then-dispatch logic sequentially to each non-NULL item with its own
position-derived cache key, but (i) NULL inputs are skipped outright, so
a successful call returns exactly one result per non-NULL input (the
output matches the subsequence of non-NULL inputs, not the input
positions); and (ii) a per-item failure of the nested cached invoke does
not appear in place — it aborts the entire call with that error,
discarding the results accumulated so far. -/
theorem batch_cached_sequence_shape (env : AIEnv) (now : Int)
    (model_name : String) (user_args : Option String) (ttl_seconds : Int) :
    (∀ (inputs : List (Option String)) (db : CacheDB) (rs : List String)
        (db2 : CacheDB),
      ai_batch_invoke_cached env now model_name inputs user_args ttl_seconds
        db = .ok (rs, db2) →
      rs.length = (inputs.filter Option.isSome).length) ∧
    (∀ (i : Nat) (rest : List (Option String)) (db : CacheDB)
        (hits misses : Nat) (acc : List String) (e input_text : String),
      (if env.enable_cache && decide (0 < ttl_seconds) then
          lookup_cache_result model_name (simple_hash input_text i)
            ttl_seconds now db
        else none) = none →
      ai_invoke_model_cached env now model_name
        (env.merge_args user_args input_text) ttl_seconds db = .error e →
      ai_batch_invoke_cached_loop env now model_name user_args ttl_seconds
        (some input_text :: rest) i db hits misses acc = .error e) ∧
    (∀ (inputs : List (Option String)) (db : CacheDB) (e : String),
      ai_batch_invoke_cached_loop env now model_name user_args ttl_seconds
        inputs 0 db 0 0 [] = .error e →
      ai_batch_invoke_cached env now model_name inputs user_args ttl_seconds
        db = .error e) := by
  refine ⟨?_, ?_, ?_⟩
  · intro inputs db rs db2 h
    unfold ai_batch_invoke_cached at h
    cases hl : ai_batch_invoke_cached_loop env now model_name user_args
        ttl_seconds inputs 0 db 0 0 [] with
    | error e => rw [hl] at h; exact Except.noConfusion h
    | ok out =>
      obtain ⟨rs0, db0, h0, m0⟩ := out
      rw [hl] at h
      simp only [Except.ok.injEq, Prod.mk.injEq] at h
      have hlen := batch_cached_loop_length env now model_name user_args
        ttl_seconds inputs 0 db 0 0 [] rs0 db0 h0 m0 hl
      rw [← h.1]
      simpa using hlen
  · intro i rest db hits misses acc e input_text hlk herr
    simp only [ai_batch_invoke_cached_loop, hlk, herr]
  · intro inputs db e hl
    unfold ai_batch_invoke_cached
    rw [hl]

/-- C8 witness: with the failing environment, the loop on inputs
[some "a", some "b"] aborts with the underlying error. -/
theorem batch_cached_sequence_shape_witness :
    ai_batch_invoke_cached_loop failEnv 0 "m" none 3600
      [some "a", some "b"] 0 emptyCacheDB 0 0 [] =
      Except.error "Model not found" :=
  (batch_cached_sequence_shape failEnv 0 "m" none 3600).2.1
    0 [some "b"] emptyCacheDB 0 0 [] "Model not found" "a" rfl rfl
